import Mathlib

/-!
Verification of the Tikauto video pipeline (src/youtube-donwload/dowload.py).

The program downloads two videos, stacks them vertically (bottom audio
removed), and splits the composite into fixed-length chunks.  We shallowly
embed the pure content of each function and model the effectful parts
(network, filesystem, video encoder) by an abstract `World` whose fields say
which operations succeed; every stage of the pipeline is embedded as a total
Lean function returning its Python result together with the trace of
filesystem actions it performs.
-/

/-- A decoded video clip handle (moviepy VideoFileClip abstraction):
duration in seconds (a rational, since moviepy durations are fractional),
pixel width and height, and the list of audio-track identifiers it carries
(a freshly opened clip has one track; without_audio removes them all). -/
structure Clip where
  duration : ℚ
  w : ℕ
  h : ℕ
  audio : List ℕ
  deriving DecidableEq, Repr

/-- clip.without_audio(): drop all audio tracks, everything else unchanged. -/
def without_audio (c : Clip) : Clip :=
  { c with audio := [] }

/-- clip.resize(width=width): set the width, scale the height by the same
ratio (integer approximation of the proportional rescale); duration and
audio are untouched. -/
def resizeToWidth (width : ℕ) (c : Clip) : Clip :=
  { c with w := width, h := c.h * width / c.w }

/-- clip.loop(duration=d): repeat the content of the clip until it lasts
exactly d seconds; only the duration changes. -/
def Clip.loop (c : Clip) (d : ℚ) : Clip :=
  { c with duration := d }

/-- adjust_video_durations (dowload.py lines 27-35): if the bottom clip is
strictly shorter than the top clip, loop the bottom to the top duration;
otherwise both are returned unchanged.  The duration comparison and loop
are total, so the except branch (which yields (None, None)) is
unreachable in the embedding; we keep the Option result to reflect it. -/
def adjust_video_durations (top_video bottom_video : Clip) : Option (Clip × Clip) :=
  if bottom_video.duration < top_video.duration then
    some (top_video, bottom_video.loop top_video.duration)
  else
    some (top_video, bottom_video)

/-- The composite clip built by stack_videos (dowload.py lines 40-58) from
two already-opened clips: remove the bottom audio, compute
width = min of the two widths, rescale both to that width, reconcile
durations, and composite on a canvas of size (width, top.h + bottom.h).
The composite carries the audio tracks of its components and lasts as long
as the longer component. -/
def stack_composite (top bottom : Clip) : Option Clip :=
  let bottom_clip := without_audio bottom
  let width := min top.w bottom_clip.w
  let top_clip := resizeToWidth width top
  let bottom_clip := resizeToWidth width bottom_clip
  match adjust_video_durations top_clip bottom_clip with
  | none => none
  | some (t, b) =>
      some { duration := max t.duration b.duration
             w := width
             h := t.h + b.h
             audio := t.audio ++ b.audio }

/-- Ceiling division on ℕ: the number of elements of Python
range(0, a, b) for b > 0 (CPython computes this length as
(stop - start + step - 1) // step). -/
def cdiv (a b : ℕ) : ℕ := (a + b - 1) / b

/-- Python range(0, stop, step) for step > 0: the arithmetic progression
0, step, 2·step, ... of length cdiv stop step. -/
def pythonRange (stop step : ℕ) : List ℕ :=
  List.range' 0 (cdiv stop step) step

/-- Python int(q) for a rational q: truncation toward zero, which is what
Lean integer division of the numerator by the denominator computes. -/
def pyint (q : ℚ) : ℤ := q.num / (q.den : ℤ)

/-- The file name of the chunk starting at second start, for chunk length
d: chunk_<start // d + 1>.mp4 (dowload.py line 78). -/
def chunkName (d start : ℕ) : String :=
  "chunk_" ++ toString (start / d + 1) ++ ".mp4"

/-- os.path.join(folder, chunkName). -/
def chunkPath (folder : String) (d start : ℕ) : String :=
  folder ++ "/" ++ chunkName d start

/-- One chunk produced by split_video: the sub-clip interval
[start, stop) and the file name it is rendered to. -/
structure Chunk where
  start : ℕ
  stop : ℕ
  name : String
  deriving DecidableEq, Repr

/-- The chunk list computed by the loop of split_video
(dowload.py lines 75-78) on a source of T whole seconds with chunk
length d: for each start in range(0, T, d), the sub-clip
[start, min (start + d) T) rendered to chunk_<start // d + 1>.mp4. -/
def split_chunks (T d : ℕ) : List Chunk :=
  (pythonRange T d).map fun start =>
    { start := start
      stop := min (start + d) T
      name := chunkName d start }

/-- split_video with a fractional source duration: line 72 first takes
total_duration = int(clip.duration), then chunks that whole-second
duration. -/
def split_video_q (duration : ℚ) (d : ℕ) : List Chunk :=
  split_chunks (pyint duration).toNat d

theorem cdiv_zero_left (b : ℕ) : cdiv 0 b = 0 := by
  unfold cdiv
  rcases Nat.eq_zero_or_pos b with hb | hb
  · simp [hb]
  · exact Nat.div_eq_of_lt (by omega)

theorem length_split_chunks (T d : ℕ) : (split_chunks T d).length = cdiv T d := by
  simp [split_chunks, pythonRange]

theorem getElem_split_chunks (T d : ℕ) (hd : 0 < d) (i : ℕ)
    (h : i < (split_chunks T d).length) :
    (split_chunks T d).get ⟨i, h⟩ =
      { start := i * d
        stop := min ((i + 1) * d) T
        name := "chunk_" ++ toString (i + 1) ++ ".mp4" } := by
  have h' : i < (pythonRange T d).length := by
    simpa [split_chunks] using h
  simp only [split_chunks, List.get_eq_getElem, List.getElem_map]
  have hr : (pythonRange T d)[i] = 0 + d * i := by
    simp [pythonRange, List.getElem_range']
  rw [hr]
  have h1 : 0 + d * i = i * d := by ring
  have h2 : 0 + d * i + d = (i + 1) * d := by ring
  rw [h1, Chunk.mk.injEq]
  refine ⟨rfl, by rw [← h1, h2], ?_⟩
  unfold chunkName
  rw [← h1, h1, Nat.mul_div_cancel i hd]

/-- A filesystem/network action performed by the pipeline, in order:
a download attempt for a URL, a completed file write, or a directory
creation. -/
inductive FsAction where
  | fetch (url : String)
  | wrote (path : String)
  | mkdir (path : String)
  deriving DecidableEq, Repr

/-- The external world the glue code runs against.  Each field models one
fallible library call: YouTube(url) resolving a handle (its title),
streams.get_highest_resolution() on that handle, stream.download into a
folder returning the saved path, VideoFileClip(path) opening a clip, and
whether write_videofile succeeds at a given destination path.  A result
of Except.error is a raised exception. -/
structure World where
  youtube : String → Except String String
  highestRes : String → Except String ℕ
  downloadStream : ℕ → String → Except String String
  openClip : String → Except String Clip
  writeOk : String → Bool

/-- The try-block of download_video (dowload.py lines 8-14): resolve the
URL, select the highest-resolution stream, download it; an error in any
of the three steps is an exception escaping the block. -/
def fetchPipeline (w : World) (url output_folder : String) : Except String String := do
  let yt ← w.youtube url
  let stream ← w.highestRes yt
  w.downloadStream stream output_folder

/-- download_video (dowload.py lines 7-17): the try-block result on
success, and None when the block raised (the except branch).  The trace
records the attempt and, on success, the file written. -/
def download_videoT (w : World) (url output_folder : String) :
    Option String × List FsAction :=
  match fetchPipeline w url output_folder with
  | .ok path => (some path, [.fetch url, .wrote path])
  | .error _ => (none, [.fetch url])

/-- stack_videos (dowload.py lines 38-66): open both clips, build the
composite (stack_composite), write it to output_path.  Any exception
(open failure, reconciliation failure, write failure) is caught and the
result is None. -/
def stack_videosT (w : World) (top_video_path bottom_video_path output_path : String) :
    Option String × List FsAction :=
  match w.openClip top_video_path, w.openClip bottom_video_path with
  | .ok top_clip, .ok bottom_clip =>
      match stack_composite top_clip bottom_clip with
      | none => (none, [])
      | some _ =>
          if w.writeOk output_path then (some output_path, [.wrote output_path])
          else (none, [])
  | _, _ => (none, [])

/-- The loop of split_video (dowload.py lines 75-81) over the remaining
chunk start times: returns the files written to disk in order, and
some of the accumulated chunk list when every write succeeded, none when
a write raised (all writes after the first failure never happen). -/
def splitLoop (ok : String → Bool) (folder : String) (d : ℕ) :
    List ℕ → List String × Option (List String)
  | [] => ([], some [])
  | s :: rest =>
      let path := chunkPath folder d s
      if ok path then
        let r := splitLoop ok folder d rest
        (path :: r.1, r.2.map (path :: ·))
      else
        ([], none)

/-- split_video (dowload.py lines 69-86): open the clip, truncate its
duration to whole seconds, loop over range(0, total, d) writing each
chunk.  The first component is the Python return value: the chunk list
when the loop completed, and the empty list from the except branch when
opening or any write raised.  The second component is the list of chunk
files actually written to disk before the failure, if any. -/
def split_videoT (w : World) (video_path output_folder : String) (d : ℕ) :
    List String × List String :=
  match w.openClip video_path with
  | .error _ => ([], [])
  | .ok clip =>
      let total := (pyint clip.duration).toNat
      let r := splitLoop w.writeOk output_folder d (pythonRange total d)
      (r.2.getD [], r.1)

/-- process_video_pair (dowload.py lines 89-108) as a trace of actions:
download both videos; if either failed, stop.  Otherwise stack into
combined_video.mp4; if that failed, stop.  Otherwise create the chunks
folder and split the combined file with the default chunk length 75. -/
def process_video_pairT (w : World) (top_video_url bottom_video_url output_folder : String) :
    List FsAction :=
  let top := download_videoT w top_video_url output_folder
  let bottom := download_videoT w bottom_video_url output_folder
  match top.1, bottom.1 with
  | some top_path, some bottom_path =>
      let combined := output_folder ++ "/combined_video.mp4"
      let stacked := stack_videosT w top_path bottom_path combined
      match stacked.1 with
      | some stacked_path =>
          let chunks_folder := output_folder ++ "/chunks"
          let split := split_videoT w stacked_path chunks_folder 75
          top.2 ++ bottom.2 ++ stacked.2 ++ [.mkdir chunks_folder] ++ split.2.map .wrote
      | none => top.2 ++ bottom.2 ++ stacked.2
  | _, _ => top.2 ++ bottom.2

/-- The pairs the playlist loop iterates over (dowload.py line 131):
zip(top_playlist.video_urls, bottom_playlist.video_urls), which
truncates to the shorter list. -/
def playlistPairs (tops bottoms : List String) : List (String × String) :=
  tops.zip bottoms

/-- process_playlists (dowload.py lines 119-133) as a trace: run the pair
orchestrator once per zipped pair, all into the same run folder. -/
def process_playlistsT (w : World) (tops bottoms : List String) (output_folder : String) :
    List FsAction :=
  (playlistPairs tops bottoms).flatMap fun p =>
    process_video_pairT w p.1 p.2 output_folder

theorem adjust_eq (t b : Clip) :
    adjust_video_durations t b =
      some (t, if b.duration < t.duration then b.loop t.duration else b) := by
  unfold adjust_video_durations
  split
  case isTrue h => rfl
  case isFalse h => rfl

/-- C1: for every chunk length d > 0 and source of T whole seconds,
split_video produces exactly cdiv T d = ceil(T/d) chunks; the chunk at
0-indexed position i (1-indexed i+1) covers [i·d, min ((i+1)·d) T) and
is named chunk_<i+1>.mp4, so the returned list is ordered by index; and
every chunk, the final one in particular, has length at most d. -/
theorem split_video_chunk_spec (T d : ℕ) (hd : 0 < d) :
    (split_chunks T d).length = cdiv T d ∧
    (∀ i, (h : i < (split_chunks T d).length) →
      (split_chunks T d).get ⟨i, h⟩ =
        { start := i * d
          stop := min ((i + 1) * d) T
          name := "chunk_" ++ toString (i + 1) ++ ".mp4" }) ∧
    (∀ c ∈ split_chunks T d, c.stop - c.start ≤ d) := by
  refine ⟨length_split_chunks T d, fun i h => getElem_split_chunks T d hd i h, ?_⟩
  intro c hc
  simp only [split_chunks, List.mem_map] at hc
  obtain ⟨s, _, rfl⟩ := hc
  simp only
  omega

/-- C1 witness: the 200-second, d = 75 scenario of the spec has
ceil(200/75) = 3 chunks. -/
theorem split_video_chunk_spec_witness :
    (split_chunks 200 75).length = cdiv 200 75 :=
  (split_video_chunk_spec 200 75 (by decide)).1

/-- C10: split_video truncates a fractional duration downward to whole
seconds (pyint is the floor of a nonnegative rational); every produced
chunk ends no later than that floor, so the fractional tail lies in no
chunk; and a source with 0 < duration < 1 yields the empty chunk list. -/
theorem split_video_truncates (q : ℚ) (hq : 0 ≤ q) (d : ℕ) :
    ((pyint q : ℚ) ≤ q ∧ q < (pyint q : ℚ) + 1) ∧
    (∀ c ∈ split_video_q q d, (c.stop : ℤ) ≤ pyint q) ∧
    (0 < q → q < 1 → split_video_q q d = []) := by
  have hfloor : pyint q = ⌊q⌋ := Rat.floor_def.symm
  refine ⟨?_, ?_, ?_⟩
  · rw [hfloor]
    constructor
    · exact_mod_cast Int.floor_le q
    · exact_mod_cast Int.lt_floor_add_one q
  · intro c hc
    simp only [split_video_q, split_chunks, List.mem_map] at hc
    obtain ⟨s, hs, rfl⟩ := hc
    have h2 : 0 ≤ pyint q := by
      rw [hfloor]
      exact Int.floor_nonneg.mpr hq
    simp only
    omega
  · intro h0 h1
    have hz : ⌊q⌋ = 0 := by
      rw [Int.floor_eq_zero_iff]
      exact ⟨hq, by exact_mod_cast h1⟩
    have ht : (pyint q).toNat = 0 := by
      rw [hfloor, hz]
      rfl
    simp [split_video_q, ht, split_chunks, pythonRange, cdiv_zero_left]

/-- C10 witness: a half-second source produces no chunks. -/
theorem split_video_truncates_witness :
    split_video_q (1 / 2) 75 = [] :=
  (split_video_truncates (1 / 2) (by norm_num) 75).2.2 (by norm_num) (by norm_num)

/-- C3: if the bottom clip is strictly shorter than the top clip,
adjust_video_durations returns a bottom whose duration equals the top
duration exactly; if the bottom is at least as long, the returned bottom
is the input bottom unchanged. -/
theorem adjust_durations_spec (t b t' b' : Clip)
    (h : adjust_video_durations t b = some (t', b')) :
    (b.duration < t.duration → b'.duration = t.duration) ∧
    (t.duration ≤ b.duration → b' = b) := by
  unfold adjust_video_durations at h
  split at h
  case isTrue hlt =>
    simp only [Option.some.injEq, Prod.mk.injEq] at h
    obtain ⟨rfl, rfl⟩ := h
    exact ⟨fun _ => rfl, fun hge => absurd hlt (not_lt.mpr hge)⟩
  case isFalse hge =>
    simp only [Option.some.injEq, Prod.mk.injEq] at h
    obtain ⟨rfl, rfl⟩ := h
    exact ⟨fun hlt => absurd hlt hge, fun _ => rfl⟩

/-- A 120-second top clip, as in the reconciliation scenario of the spec. -/
def topSample : Clip := { duration := 120, w := 1920, h := 1080, audio := [0] }

/-- A 40-second bottom clip, as in the reconciliation scenario of the spec. -/
def bottomSample : Clip := { duration := 40, w := 1280, h := 720, audio := [1] }

/-- C3 witness: reconciling a 120s top with a 40s bottom loops the bottom
to exactly 120 seconds. -/
theorem adjust_durations_spec_witness :
    (bottomSample.loop topSample.duration).duration = topSample.duration :=
  (adjust_durations_spec topSample bottomSample topSample
      (bottomSample.loop topSample.duration) (by decide)).1 (by decide)

/-- C4: adjust_video_durations always returns the top clip unchanged as
the first component, whatever the relative durations. -/
theorem adjust_top_unchanged (t b : Clip) :
    ∃ b', adjust_video_durations t b = some (t, b') :=
  ⟨_, adjust_eq t b⟩

/-- C8: the Stacker rescales both clips to width = min of the input
widths and composites on a canvas of exactly that width. -/
theorem stack_width_spec (top bottom : Clip) :
    ∃ c, stack_composite top bottom = some c ∧ c.w = min top.w bottom.w := by
  simp only [stack_composite, adjust_eq]
  exact ⟨_, rfl, rfl⟩

/-- C9: the audio of the Stacker composite derives solely from the top
clip: the bottom audio is removed before compositing, so the composite
carries exactly the top clip's audio tracks. -/
theorem stack_audio_spec (top bottom : Clip) :
    ∃ c, stack_composite top bottom = some c ∧ c.audio = top.audio := by
  simp only [stack_composite, adjust_eq]
  refine ⟨_, rfl, ?_⟩
  simp only [resizeToWidth, without_audio, Clip.loop]
  split <;> simp

/-- C5: any error raised during resolution, stream selection, or
download is caught by download_video, which returns None; a successful
pipeline returns its path.  The total Option result type embodies that
no exception ever propagates out of the Fetcher. -/
theorem download_video_catches (w : World) (url folder : String) :
    (∀ e, fetchPipeline w url folder = .error e →
      (download_videoT w url folder).1 = none) ∧
    (∀ p, fetchPipeline w url folder = .ok p →
      (download_videoT w url folder).1 = some p) := by
  unfold download_videoT
  constructor
  · intro e he
    rw [he]
  · intro p hp
    rw [hp]

/-- A world in which every network call fails with an HTTP error. -/
def failWorld : World :=
  { youtube := fun _ => .error "HTTP Error 400: Bad Request"
    highestRes := fun _ => .error "unreachable"
    downloadStream := fun _ _ => .error "unreachable"
    openClip := fun _ => .error "unreachable"
    writeOk := fun _ => true }

/-- C5 witness: a failing resolution yields None from download_video. -/
theorem download_video_catches_witness :
    (download_videoT failWorld "https://youtu.be/x" "output").1 = none :=
  (download_video_catches failWorld "https://youtu.be/x" "output").1
    "HTTP Error 400: Bad Request" rfl

theorem splitLoop_fails (ok : String → Bool) (folder : String) (d : ℕ) (l : List ℕ)
    (h : ∃ s ∈ l, ok (chunkPath folder d s) = false) :
    (splitLoop ok folder d l).2 = none ∧
    (splitLoop ok folder d l).1 =
      (l.takeWhile fun s => ok (chunkPath folder d s)).map (chunkPath folder d) := by
  induction l with
  | nil => simp at h
  | cons s rest ih =>
    by_cases hs : ok (chunkPath folder d s) = true
    · have hrest : ∃ x ∈ rest, ok (chunkPath folder d x) = false := by
        obtain ⟨x, hx, hxf⟩ := h
        rcases List.mem_cons.mp hx with rfl | hx'
        · rw [hs] at hxf
          cases hxf
        · exact ⟨x, hx', hxf⟩
      obtain ⟨h1, h2⟩ := ih hrest
      constructor
      · simp [splitLoop, hs, h1]
      · simp [splitLoop, hs, h2, List.takeWhile_cons]
    · have hs' : ok (chunkPath folder d s) = false := by
        simpa using hs
      simp [splitLoop, hs', List.takeWhile_cons]

/-- A 150-second source clip for the failing-write scenario. -/
def clip150 : Clip := { duration := 150, w := 1080, h := 1920, audio := [0] }

/-- A world in which every clip opens as the 150-second clip and the
write of out/chunk_2.mp4 raises, while every other write succeeds. -/
def splitFailWorld : World :=
  { youtube := fun _ => .error "unused"
    highestRes := fun _ => .error "unused"
    downloadStream := fun _ _ => .error "unused"
    openClip := fun _ => .ok clip150
    writeOk := fun p => p != "out/chunk_2.mp4" }

/-- C2 counterexample: on a 150-second source with chunk length 75 where
the write of the second chunk raises, out/chunk_1.mp4 was already
written to disk, yet split_video returns the empty list: the partial
chunk list is discarded by the except branch, not returned. -/
theorem split_partial_cex :
    (split_videoT splitFailWorld "video.mp4" "out" 75).2 = ["out/chunk_1.mp4"] ∧
    (split_videoT splitFailWorld "video.mp4" "out" 75).1 = [] := by
  decide

/-- C2 amended: when the source opens and some chunk write raises,
split_video returns the EMPTY list (the caught exception discards the
accumulated list); the chunks written before the first failure remain on
disk but are not part of the returned value. -/
theorem split_partial_amended (w : World) (p folder : String) (d : ℕ) (clip : Clip)
    (hopen : w.openClip p = .ok clip)
    (hfail : ∃ s ∈ pythonRange (pyint clip.duration).toNat d,
      w.writeOk (chunkPath folder d s) = false) :
    (split_videoT w p folder d).1 = [] ∧
    (split_videoT w p folder d).2 =
      ((pythonRange (pyint clip.duration).toNat d).takeWhile
        (fun s => w.writeOk (chunkPath folder d s))).map (chunkPath folder d) := by
  obtain ⟨h1, h2⟩ := splitLoop_fails w.writeOk folder d
    (pythonRange (pyint clip.duration).toNat d) hfail
  simp only [split_videoT, hopen]
  exact ⟨by rw [h1]; rfl, h2⟩

/-- C2 amended witness: the 150-second scenario with the second write
failing returns the empty list. -/
theorem split_partial_amended_witness :
    (split_videoT splitFailWorld "video.mp4" "out" 75).1 = [] :=
  (split_partial_amended splitFailWorld "video.mp4" "out" 75 clip150 rfl
    ⟨75, by decide, by decide⟩).1

theorem download_trace_mem (w : World) (url folder : String) (a : FsAction)
    (ha : a ∈ (download_videoT w url folder).2) :
    a = .fetch url ∨ ∃ p, a = .wrote p ∧ fetchPipeline w url folder = .ok p := by
  unfold download_videoT at ha
  cases hf : fetchPipeline w url folder with
  | ok p =>
    rw [hf] at ha
    simp only [List.mem_cons, List.not_mem_nil, or_false] at ha
    rcases ha with rfl | rfl
    · exact Or.inl rfl
    · exact Or.inr ⟨p, rfl, rfl⟩
  | error e =>
    rw [hf] at ha
    simp only [List.mem_singleton] at ha
    exact Or.inl ha

theorem download_trace_fetch (w : World) (url folder u : String)
    (h : FsAction.fetch u ∈ (download_videoT w url folder).2) : u = url := by
  rcases download_trace_mem w url folder _ h with heq | ⟨p, heq, _⟩
  · injection heq
  · cases heq

theorem stack_trace_mem (w : World) (tp bp op : String) (a : FsAction)
    (ha : a ∈ (stack_videosT w tp bp op).2) : a = .wrote op := by
  unfold stack_videosT at ha
  rcases hto : w.openClip tp with e | tc <;> rcases hbo : w.openClip bp with e2 | bc <;>
    simp only [hto, hbo] at ha
  · exact absurd ha (List.not_mem_nil a)
  · exact absurd ha (List.not_mem_nil a)
  · exact absurd ha (List.not_mem_nil a)
  · rcases hc : stack_composite tc bc with _ | c <;> simp only [hc] at ha
    · exact absurd ha (List.not_mem_nil a)
    · by_cases hw : w.writeOk op
      · simp only [if_pos hw, List.mem_singleton] at ha
        exact ha
      · simp only [if_neg hw] at ha
        exact absurd ha (List.not_mem_nil a)

/-- C6: if either download of a pair fails, process_video_pair stops
after the two download attempts: its whole action trace is exactly the
downloads' trace, no directory is ever created (so no chunks folder),
and every file written is a completed download of one of the two URLs
(so neither combined_video.mp4 nor any chunk is written). -/
theorem pair_abort (w : World) (topUrl bottomUrl folder : String)
    (h : (download_videoT w topUrl folder).1 = none ∨
         (download_videoT w bottomUrl folder).1 = none) :
    process_video_pairT w topUrl bottomUrl folder =
      (download_videoT w topUrl folder).2 ++ (download_videoT w bottomUrl folder).2 ∧
    (∀ p, FsAction.mkdir p ∉ process_video_pairT w topUrl bottomUrl folder) ∧
    (∀ p, FsAction.wrote p ∈ process_video_pairT w topUrl bottomUrl folder →
      fetchPipeline w topUrl folder = .ok p ∨ fetchPipeline w bottomUrl folder = .ok p) := by
  have htrace : process_video_pairT w topUrl bottomUrl folder =
      (download_videoT w topUrl folder).2 ++ (download_videoT w bottomUrl folder).2 := by
    simp only [process_video_pairT]
    rcases htop : (download_videoT w topUrl folder).1 with _ | tp <;>
      rcases hbot : (download_videoT w bottomUrl folder).1 with _ | bp
    · rfl
    · rfl
    · rfl
    · rw [htop, hbot] at h
      rcases h with h | h <;> cases h
  refine ⟨htrace, ?_, ?_⟩
  · intro p hp
    rw [htrace] at hp
    rcases List.mem_append.mp hp with hp | hp <;>
      rcases download_trace_mem w _ folder _ hp with heq | ⟨q, heq, _⟩ <;> cases heq
  · intro p hp
    rw [htrace] at hp
    rcases List.mem_append.mp hp with hp | hp <;>
      rcases download_trace_mem w _ folder _ hp with heq | ⟨q, heq, hok⟩
    · cases heq
    · cases heq
      exact Or.inl hok
    · cases heq
    · cases heq
      exact Or.inr hok

/-- C6 witness: with every network call failing, the pair trace is just
the two download attempts. -/
theorem pair_abort_witness :
    process_video_pairT failWorld "top-url" "bottom-url" "out" =
      (download_videoT failWorld "top-url" "out").2 ++
        (download_videoT failWorld "bottom-url" "out").2 :=
  (pair_abort failWorld "top-url" "bottom-url" "out" (Or.inl rfl)).1

theorem pair_trace_fetch (w : World) (t b folder u : String)
    (h : FsAction.fetch u ∈ process_video_pairT w t b folder) :
    u = t ∨ u = b := by
  simp only [process_video_pairT] at h
  rcases htop : (download_videoT w t folder).1 with _ | tp <;>
    rcases hbot : (download_videoT w b folder).1 with _ | bp <;>
    simp only [htop, hbot] at h
  case none.none | none.some | some.none =>
    rcases List.mem_append.mp h with h | h
    · exact Or.inl (download_trace_fetch w t folder u h)
    · exact Or.inr (download_trace_fetch w b folder u h)
  case some.some =>
    rcases hst : (stack_videosT w tp bp (folder ++ "/combined_video.mp4")).1 with _ | sp <;>
      simp only [hst, List.append_assoc, List.mem_append] at h
    · rcases h with h | h | h
      · exact Or.inl (download_trace_fetch w t folder u h)
      · exact Or.inr (download_trace_fetch w b folder u h)
      · cases stack_trace_mem w tp bp _ _ h
    · rcases h with h | h | h | h
      · exact Or.inl (download_trace_fetch w t folder u h)
      · exact Or.inr (download_trace_fetch w b folder u h)
      · cases stack_trace_mem w tp bp _ _ h
      · rcases h with h | h
        · simp only [List.mem_singleton] at h
          cases h
        · rcases List.mem_map.mp h with ⟨q, _, hq⟩
          cases hq

/-- C7: playlist mode pairs the two url lists positionally: the pair
list has length min m n, its i-th element is the pair of the i-th urls,
and every url for which a download is ever attempted sits at a position
before min m n in one of the two lists, so videos beyond the shorter
length are never fetched. -/
theorem playlists_spec (tops bottoms : List String) :
    (playlistPairs tops bottoms).length = min tops.length bottoms.length ∧
    (∀ i, (h1 : i < tops.length) → (h2 : i < bottoms.length) →
      (h : i < (playlistPairs tops bottoms).length) →
      (playlistPairs tops bottoms).get ⟨i, h⟩ = (tops.get ⟨i, h1⟩, bottoms.get ⟨i, h2⟩)) ∧
    (∀ w folder url, FsAction.fetch url ∈ process_playlistsT w tops bottoms folder →
      ∃ i, i < min tops.length bottoms.length ∧
        (tops[i]? = some url ∨ bottoms[i]? = some url)) := by
  refine ⟨?_, ?_, ?_⟩
  · show (tops.zip bottoms).length = min tops.length bottoms.length
    rw [List.length_zip, inf_eq_min]
  · intro i h1 h2 h
    simp [playlistPairs, List.getElem_zip]
  · intro w folder url hmem
    simp only [process_playlistsT, List.mem_flatMap] at hmem
    obtain ⟨p, hp, hfetch⟩ := hmem
    obtain ⟨i, hi, hip⟩ := List.getElem_of_mem hp
    have hlen : i < min tops.length bottoms.length := by
      have hz := List.length_zip tops bottoms
      rw [inf_eq_min] at hz
      simp only [playlistPairs] at hi
      omega
    have hq : (playlistPairs tops bottoms)[i]? = some p := by
      rw [List.getElem?_eq_getElem hi, hip]
    have hcomp : tops[i]? = some p.1 ∧ bottoms[i]? = some p.2 :=
      (List.getElem?_zip_eq_some.mp hq)
    rcases pair_trace_fetch w p.1 p.2 folder url hfetch with rfl | rfl
    · exact ⟨i, hlen, Or.inl hcomp.1⟩
    · exact ⟨i, hlen, Or.inr hcomp.2⟩

/-- C7 witness: the 5-versus-3 playlist scenario of the spec: the url
a1, fetched by the loop, sits at a position before min 5 3 = 3. -/
theorem playlists_spec_witness :
    ∃ i, i < min (["a1", "a2", "a3", "a4", "a5"] : List String).length
        (["b1", "b2", "b3"] : List String).length ∧
      ((["a1", "a2", "a3", "a4", "a5"] : List String)[i]? = some "a1" ∨
        (["b1", "b2", "b3"] : List String)[i]? = some "a1") :=
  (playlists_spec ["a1", "a2", "a3", "a4", "a5"] ["b1", "b2", "b3"]).2.2
    failWorld "out" "a1" (by decide)
